import Mathlib

/-!
Verification development for the log-aggregation pipeline.

Shallow embedding of the Go sources into Lean 4:
* `Models`      — shared data model (`pkg/models`): log entries, time ranges,
                  search queries, batches.
* `Storage`     — the time-partitioned `FileStore` with its gob-encoded
                  partitions and in-memory index.
* `Shipper`     — circuit breaker state machine and retry loop.
* `Receiver`    — HTTP ingest handler and the token-bucket rate limiter.
* `QueryEngine` — query validation, sorting, pagination and result cache.
* `Tailer`      — file tailer state handling.
* `CloneHeap`   — a small heap model capturing Go reference semantics of
                  nested values, used to analyse `LogEntry.Clone`.

Machine integers are modelled as `Nat`/`Int` (counters in the sources only
ever increase or reset to zero and stay far from 2^63, and wall-clock
instants are modelled as integer nanoseconds).
-/

namespace Models

/-- Log severity, `pkg/models/log_entry.go` (`LogLevel`). -/
inductive LogLevel where
  | debug
  | info
  | warn
  | error
  | fatal
deriving DecidableEq, Repr, Inhabited

/-- A log entry, `pkg/models/log_entry.go` (`LogEntry`).  The timestamp is a
wall-clock instant in integer nanoseconds.  The open-ended `Fields` map and
the `Tags` slice are modelled separately in `CloneHeap` where their reference
semantics matter; for the store, receiver and query claims the scalar part of
the record (compared structurally, which is what byte-equality of the encoded
record amounts to) is what the claims quantify over. -/
structure LogEntry where
  id        : String
  timestamp : Int
  level     : LogLevel
  message   : String
  source    : String
  host      : String
  service   : String
  raw       : String
deriving DecidableEq, Repr, Inhabited

/-- A time range, `pkg/models/common.go` (`TimeRange`), instants in integer
nanoseconds. -/
structure TimeRange where
  Start : Int
  End   : Int
deriving DecidableEq, Repr, Inhabited

/-- `TimeRange.Contains` from `pkg/models/common.go`:
`!t.Before(tr.Start) && !t.After(tr.End)`. -/
def TimeRange.Contains (tr : TimeRange) (t : Int) : Bool :=
  decide (tr.Start ≤ t) && decide (t ≤ tr.End)

/-- A search query, `pkg/models/common.go` (`SearchQuery`).  `Filters` keeps
only the shape needed by the claims (an association list standing in for the
Go map). -/
structure SearchQuery where
  Query     : String
  TimeRange : TimeRange
  Filters   : List (String × String)
  Limit     : Int
  Offset    : Int
  SortBy    : String
  SortOrder : String
  Fields    : List String
deriving DecidableEq, Repr, Inhabited

/-- A search result, `pkg/models/common.go` (`SearchResult`). -/
structure SearchResult where
  Hits     : List LogEntry
  Total    : Int
  Took     : Int
  TimedOut : Bool
deriving DecidableEq, Repr, Inhabited

/-- A batch envelope, `pkg/models/common.go` (`Batch`). -/
structure Batch where
  Entries         : List LogEntry
  ID              : String
  Source          : String
  Timestamp       : Int
  Compressed      : Bool
  CompressionType : String
deriving DecidableEq, Repr, Inhabited

end Models

namespace Storage

open Models

/-- `toLower` from `internal/storage/store.go`: ASCII-only lowercasing,
byte by byte. -/
def toLower (s : String) : String :=
  String.mk (s.data.map fun c =>
    if 'A' ≤ c ∧ c ≤ 'Z' then Char.ofNat (c.toNat + 32) else c)

/-- Helper for `contains`: does `sub` occur at the head of `s`? -/
def prefixAt : List Char → List Char → Bool
  | _, [] => true
  | [], _ :: _ => false
  | c :: s, d :: sub => c = d && prefixAt s sub

/-- `contains` from `internal/storage/store.go`: substring scan; the empty
needle always matches. -/
def containsSub : List Char → List Char → Bool
  | s, [] => (fun _ => true) s
  | [], _ :: _ => false
  | c :: s, d :: sub =>
    prefixAt (c :: s) (d :: sub) || containsSub s (d :: sub)

/-- `containsIgnoreCase` from `internal/storage/store.go`. -/
def containsIgnoreCase (s substr : String) : Bool :=
  containsSub (toLower s).data (toLower substr).data

/-- The entry filter applied by `FileStore.readPartition` to each decoded
entry: skip unless the time range contains the timestamp, and skip when a
non-empty query string is not a case-insensitive substring of the message. -/
def entryMatches (q : SearchQuery) (e : LogEntry) : Bool :=
  q.TimeRange.Contains e.timestamp &&
    (q.Query == "" || containsIgnoreCase e.message q.Query)

/-- `FileStore.readPartition` from `internal/storage/store.go`, applied to
the decoded entry sequence of a partition: sequential scan keeping the
entries that pass the time-range containment test and the message substring
test. -/
def readPartition (entries : List LogEntry) (q : SearchQuery) : List LogEntry :=
  entries.filter (entryMatches q)

end Storage

namespace Shipper

/-- Circuit state, `internal/shipper/shipper.go` (`circuitState`). -/
inductive CircuitState where
  | circuitClosed
  | circuitOpen
  | circuitHalfOpen
deriving DecidableEq, Repr, Inhabited

open CircuitState

/-- Shipper configuration, `internal/shipper/shipper.go` (`Config`) — the
fields the circuit breaker and retry loop read.  Durations are integer
nanoseconds. -/
structure Config where
  MaxRetries       : Nat
  RetryBackoff     : Nat
  FailureThreshold : Nat
  SuccessThreshold : Nat
  OpenTimeout      : Nat
deriving DecidableEq, Repr

/-- Per-endpoint circuit-breaker state, `internal/shipper/shipper.go`
(`endpoint`), minus the fixed URL.  `lastFailure` is a wall-clock instant in
nanoseconds. -/
structure Endpoint where
  state           : CircuitState
  failures        : Nat
  successes       : Nat
  consecutiveFail : Nat
  lastFailure     : Nat
deriving DecidableEq, Repr, Inhabited

/-- `Shipper.recordSuccess` from `internal/shipper/shipper.go`. -/
def recordSuccess (cfg : Config) (ep : Endpoint) : Endpoint :=
  let ep := { ep with successes := ep.successes + 1, consecutiveFail := 0 }
  if ep.state = circuitHalfOpen ∧ cfg.SuccessThreshold ≤ ep.successes then
    { ep with state := circuitClosed, failures := 0, successes := 0 }
  else
    ep

/-- `Shipper.recordFailure` from `internal/shipper/shipper.go`; `now` is the
instant recorded as `lastFailure`. -/
def recordFailure (cfg : Config) (now : Nat) (ep : Endpoint) : Endpoint :=
  let ep := { ep with
    failures := ep.failures + 1,
    consecutiveFail := ep.consecutiveFail + 1,
    lastFailure := now }
  if ep.state = circuitHalfOpen then
    { ep with state := circuitOpen, successes := 0 }
  else if cfg.FailureThreshold ≤ ep.consecutiveFail then
    { ep with state := circuitOpen }
  else
    ep

/-- A sequence of consecutive recorded failures, at the given instants. -/
def recordFailures (cfg : Config) : List Nat → Endpoint → Endpoint
  | [], ep => ep
  | t :: ts, ep => recordFailures cfg ts (recordFailure cfg t ep)

/-- Sample shipper configuration: `FailureThreshold = 1`,
`SuccessThreshold = 2`, `OpenTimeout = 10`. -/
def demoCfg : Config := ⟨3, 7, 1, 2, 10⟩

/-- The per-endpoint eligibility test inside `Shipper.selectEndpoint`
(`internal/shipper/shipper.go`): Closed and HalfOpen endpoints are eligible;
an Open endpoint is eligible only when strictly more than `OpenTimeout` has
elapsed since `lastFailure`, in which case it transitions to HalfOpen. -/
def selectCheck (cfg : Config) (now : Nat) (ep : Endpoint) : Bool × Endpoint :=
  match ep.state with
  | circuitClosed => (true, ep)
  | circuitHalfOpen => (true, ep)
  | circuitOpen =>
    if cfg.OpenTimeout < now - ep.lastFailure then
      (true, { ep with state := circuitHalfOpen })
    else
      (false, ep)

/-- An endpoint of `demoCfg` driven through: one success recorded while
Closed, one failure at instant 5 (which opens the circuit, the threshold
being 1), then the eligibility re-check at instant 100 (past `OpenTimeout`),
which moves it to HalfOpen.  Its cumulative success counter still holds the
success recorded while Closed. -/
def demoHalfOpenEp : Endpoint :=
  (selectCheck demoCfg 100
    (recordFailure demoCfg 5
      (recordSuccess demoCfg ⟨circuitClosed, 0, 0, 0, 0⟩))).2

/-- The retry loop of `Shipper.sendWithRetry` from
`internal/shipper/shipper.go`, abstracted over the outcome of each send
attempt (`outcome i = true` means attempt number `i`, counting from 0,
succeeds; an endpoint is assumed eligible at every attempt, the case the
claim is about).  Returns (overall success, number of send attempts
performed, the list of backoff durations slept, in order). -/
def sendWithRetryGo (cfg : Config) (outcome : Nat → Bool) :
    Nat → Nat → Bool × Nat × List Nat
  | _, 0 => (false, 0, [])
  | attempt, fuel + 1 =>
    if outcome attempt then
      (true, 1, [])
    else
      let backoffs :=
        if attempt < cfg.MaxRetries then [cfg.RetryBackoff * 2 ^ attempt] else []
      let rest := sendWithRetryGo cfg outcome (attempt + 1) fuel
      (rest.1, rest.2.1 + 1, backoffs ++ rest.2.2)

/-- `Shipper.sendWithRetry`: the Go loop
`for attempt := 0; attempt <= MaxRetries; attempt++`. -/
def sendWithRetry (cfg : Config) (outcome : Nat → Bool) : Bool × Nat × List Nat :=
  sendWithRetryGo cfg outcome 0 (cfg.MaxRetries + 1)

end Shipper

namespace Receiver

open Models

/-- Receiver configuration, `internal/receiver/receiver.go` (`Config`) — the
fields `handleIngest` and the rate limiter read. -/
structure Config where
  MaxBatchSize : Nat
  RateLimit    : Nat
deriving DecidableEq, Repr

/-- The receiver's bounded output channel: the queued entries plus its
capacity.  A non-blocking send succeeds exactly when the queue is below
capacity. -/
structure Chan where
  buf : List LogEntry
  cap : Nat
deriving DecidableEq, Repr

/-- Receiver statistics, `internal/receiver/receiver.go` (`Stats`), minus the
last-received wall-clock instant. -/
structure Stats where
  RequestsReceived : Nat
  LogsReceived     : Nat
  BytesReceived    : Nat
  Errors           : Nat
deriving DecidableEq, Repr

/-- An ingest request as `handleIngest` observes it: the HTTP method, the
outcome of `checkRateLimit` for the requesting agent, whether
decompression/body read succeeded, the body length, and the JSON-decoded
batch (`none` = decode failure). -/
structure IngestRequest where
  method       : String
  rateLimitOk  : Bool
  decompressOk : Bool
  bodyLen      : Nat
  batch        : Option Batch
deriving Repr

/-- The response `handleIngest` writes: status code, and the `received`
count present only in the 200 body. -/
structure IngestResponse where
  status   : Nat
  received : Option Nat
deriving DecidableEq, Repr

/-- The entry handoff loop of `handleIngest` (lines 248-260): for each entry
a non-blocking send to the output channel; on success `LogsReceived` is
incremented; a full channel aborts the remainder of the batch.  Returns
(all entries enqueued?, channel, stats). -/
def sendEntries : List LogEntry → Chan → Stats → Bool × Chan × Stats
  | [], ch, st => (true, ch, st)
  | e :: rest, ch, st =>
    if ch.buf.length < ch.cap then
      sendEntries rest ⟨ch.buf ++ [e], ch.cap⟩
        { st with LogsReceived := st.LogsReceived + 1 }
    else
      (false, ch, st)

/-- `Receiver.handleIngest` from `internal/receiver/receiver.go`, as the
sequential function of one request against the channel and counters (the
server-shutdown branch is not taken: the receiver is running). -/
def handleIngest (cfg : Config) (req : IngestRequest) (ch : Chan) (st : Stats) :
    IngestResponse × Chan × Stats :=
  if req.method ≠ "POST" then (⟨405, none⟩, ch, st)
  else
    let st := { st with RequestsReceived := st.RequestsReceived + 1 }
    if !req.rateLimitOk then
      (⟨429, none⟩, ch, { st with Errors := st.Errors + 1 })
    else if !req.decompressOk then
      (⟨400, none⟩, ch, { st with Errors := st.Errors + 1 })
    else
      let st := { st with BytesReceived := st.BytesReceived + req.bodyLen }
      match req.batch with
      | none => (⟨400, none⟩, ch, { st with Errors := st.Errors + 1 })
      | some batch =>
        if cfg.MaxBatchSize < batch.Entries.length then
          (⟨413, none⟩, ch, { st with Errors := st.Errors + 1 })
        else
          let r := sendEntries batch.Entries ch st
          if r.1 then
            (⟨200, some batch.Entries.length⟩, r.2.1, r.2.2)
          else
            (⟨503, none⟩, r.2.1, { r.2.2 with Errors := r.2.2.Errors + 1 })

end Receiver

namespace RateLimit

/-- Token bucket state, `internal/receiver/receiver.go` (`rateLimiter`).
`lastRefill` is a wall-clock instant in integer nanoseconds. -/
structure RLState where
  tokens     : Nat
  maxTokens  : Nat
  lastRefill : Nat
deriving DecidableEq, Repr

/-- The refill step inside `rateLimiter.allow`: `tokensToAdd :=
int(elapsed.Seconds())` (whole seconds elapsed since `lastRefill`, i.e.
`(now - lastRefill) / nanosPerSecond` rounded down); when positive, add and
clamp at `maxTokens` and move `lastRefill` to `now`.  `S` is the number of
time units in one second. -/
def refill (S now : Nat) (st : RLState) : RLState :=
  let k := (now - st.lastRefill) / S
  if 0 < k then
    { st with tokens := min (st.tokens + k) st.maxTokens, lastRefill := now }
  else
    st

/-- `rateLimiter.allow` from `internal/receiver/receiver.go`: refill, then
consume one token when available. -/
def allow (S now : Nat) (st : RLState) : Bool × RLState :=
  let st := refill S now st
  if 0 < st.tokens then (true, { st with tokens := st.tokens - 1 })
  else (false, st)

/-- Run the limiter over a trace of request instants and count the requests
accepted inside the closed window `[T, T + S]`. -/
def countAccepted (S T : Nat) : List Nat → RLState → Nat
  | [], _ => 0
  | t :: ts, st =>
    let r := allow S t st
    (if r.1 ∧ T ≤ t ∧ t ≤ T + S then 1 else 0) + countAccepted S T ts r.2

/-- Inductive invariant for the window bound: `a` is the number of requests
accepted so far inside the closed window `[T, T + S]`, and `nu` is a lower
bound on all later request instants.  The disjunction tracks where the run
stands: no window accept yet; accepts drawn from the tokens held at window
entry, no in-window refill yet (and, because some in-window call did not
refill, the last refill was less than a second before `T`); an in-window
refill happened exactly at `T` before any accept; the late phase after an
in-window refill strictly past `T` (from which no further in-window refill
is possible, so the budget `cap + 1` is final); or the window lies entirely
in the past. -/
def WindowInv (cap S T : Nat) (st : RLState) (a nu : Nat) : Prop :=
  st.tokens ≤ cap ∧ st.maxTokens = cap ∧ st.lastRefill ≤ nu ∧
  (a = 0
    ∨ (a + st.tokens ≤ cap ∧ T < st.lastRefill + S ∧ T ≤ nu ∧
        st.lastRefill ≤ T)
    ∨ (a + st.tokens ≤ cap ∧ st.lastRefill = T)
    ∨ (a + st.tokens ≤ cap + 1 ∧ T < st.lastRefill)
    ∨ (a ≤ cap + 1 ∧ T + S < nu))

end RateLimit

namespace QueryEngine

open Models

/-- A cached query result with its insertion instant
(`internal/query/query.go`, `cacheEntry`); instants in nanoseconds. -/
structure CacheEntry where
  result    : SearchResult
  timestamp : Nat
deriving DecidableEq, Repr

/-- The query result cache, `internal/query/query.go` (`queryCache`): an
association list standing in for the Go map. -/
structure QueryCache where
  entries : List (String × CacheEntry)
  maxSize : Nat
  ttl     : Nat
deriving DecidableEq, Repr

/-- `Engine.queryCacheKey` from `internal/query/query.go`:
`"%s:%d:%d:%s:%s"` over the query string, the time-range bounds as Unix
seconds, the sort field and the sort order — and nothing else. -/
def queryCacheKey (q : SearchQuery) : String :=
  q.Query ++ ":" ++ toString (q.TimeRange.Start / 1000000000) ++ ":" ++
    toString (q.TimeRange.End / 1000000000) ++ ":" ++ q.SortBy ++ ":" ++
    q.SortOrder

/-- `queryCache.get`: a hit is valid while `time.Since(entry.timestamp)` is
at most `ttl`. -/
def cacheGet (c : QueryCache) (now : Nat) (key : String) : Option SearchResult :=
  match c.entries.lookup key with
  | none => none
  | some e => if c.ttl < now - e.timestamp then none else some e.result

/-- `queryCache.set`: wholesale clear when full, then insert (map assignment
replaces any previous binding of the key). -/
def cacheSet (c : QueryCache) (now : Nat) (key : String) (r : SearchResult) :
    QueryCache :=
  let es := if c.maxSize ≤ c.entries.length then [] else c.entries
  { c with entries := (key, ⟨r, now⟩) :: es.filter (fun p => !(p.1 == key)) }

/-- `Engine.validateQuery` from `internal/query/query.go`: clamp `Limit` to
`[1, 10000]` (default 100), clamp `Offset` at 0, default the sort order and
field.  The Go code assigns the fields one after the other; since each
assignment touches a distinct field (the two `Limit` clamps chained), the
result is this per-field record. -/
def validateQuery (q : SearchQuery) : SearchQuery :=
  { q with
    Limit :=
      (fun l => if 10000 < l then 10000 else l)
        (if q.Limit ≤ 0 then 100 else q.Limit),
    Offset := if q.Offset < 0 then 0 else q.Offset,
    SortOrder := if q.SortOrder = "" then "desc" else q.SortOrder,
    SortBy := if q.SortBy = "" then "timestamp" else q.SortBy }

/-- `Engine.sortResults` from `internal/query/query.go`: the in-place
double-loop swap over index pairs `(i, j)` with `i < j`, comparing
timestamps, applied only when sorting by timestamp. -/
def sortResults (q : SearchQuery) (hits : List LogEntry) : List LogEntry :=
  if q.SortBy = "timestamp" then
    let asc := q.SortOrder = "asc"
    let n := hits.length
    let pairs :=
      ((List.range n).map fun i =>
        ((List.range n).filter fun j => decide (i < j)).map fun j => (i, j)).flatten
    let arr := pairs.foldl (fun (a : Array LogEntry) p =>
      let vi := a.getD p.1 default
      let vj := a.getD p.2 default
      let sw := if asc then vj.timestamp < vi.timestamp
                else vi.timestamp < vj.timestamp
      if sw then (a.set! p.1 vj).set! p.2 vi else a) hits.toArray
    arr.toList
  else hits

/-- `Engine.paginateResults` from `internal/query/query.go`. -/
def paginateResults (q : SearchQuery) (hits : List LogEntry) : List LogEntry :=
  if (hits.length : Int) ≤ q.Offset then []
  else (hits.drop q.Offset.toNat).take q.Limit.toNat

/-- `Engine.Query` from `internal/query/query.go`, with the underlying
`store.Query` abstracted as a function from the (validated) query to its
raw result: validate, consult the cache, and on a miss execute, sort,
paginate and cache the final result. -/
def engineQuery (storeQuery : SearchQuery → SearchResult) (now : Nat)
    (q : SearchQuery) (c : QueryCache) : SearchResult × QueryCache :=
  let q := validateQuery q
  let key := queryCacheKey q
  match cacheGet c now key with
  | some r => (r, c)
  | none =>
    let r0 := storeQuery q
    let hits := paginateResults q (sortResults q r0.Hits)
    let r := { r0 with Hits := hits }
    (r, cacheSet c now key r)

end QueryEngine

namespace Storage

open Models

/-- One message of a gob stream.  `encoding/gob` is self-describing: the
first `Encode` call on an `Encoder` emits the type descriptors followed by
the value; later `Encode` calls on the same encoder emit only the value,
referring to the type ids already transmitted.  A `Decoder` can interpret a
value message only after having read the descriptors.  The partition file is
modelled as the list of these messages; byte offsets are modelled by message
indices (`FileStore.Write` records `file.Stat().Size()` immediately before
an `Encode`, which is always a message boundary, so the byte-offset →
message-index map is a monotone bijection on exactly the recorded offsets). -/
inductive GobItem where
  | typeDef
  | value (e : LogEntry)
deriving DecidableEq, Repr

/-- A time-based partition, `internal/storage/store.go` (`partition`):
its file content as a gob message stream, plus whether its `gob.Encoder`
has already transmitted the type descriptors. -/
structure Partition where
  path       : String
  startTime  : Int
  endTime    : Int
  file       : List GobItem
  headerSent : Bool
  count      : Nat
deriving DecidableEq, Repr

/-- An in-memory index record, `internal/storage/store.go` (`indexEntry`). -/
structure IndexEntry where
  id        : String
  partition : String
  offset    : Nat
  timestamp : Int
deriving DecidableEq, Repr

/-- The file store, `internal/storage/store.go` (`FileStore`): partitions
keyed by the truncated-timestamp key, the identifier index, and the total
entry count from the aggregate stats. -/
structure FileStore where
  PartitionInterval : Int
  partitions        : List (String × Partition)
  index             : List (String × IndexEntry)
  TotalEntries      : Nat
deriving DecidableEq, Repr

/-- A fresh store over an empty directory. -/
def FileStore.empty (interval : Int) : FileStore :=
  ⟨interval, [], [], 0⟩

/-- The partition key of a timestamp: `t.Truncate(PartitionInterval)`
(rounding down to a multiple of the interval), rendered as a string (the Go
code formats the truncated time; only injectivity on truncated instants
matters). -/
def partitionKey (interval ts : Int) : String :=
  toString (ts - Int.emod ts interval)

/-- `FileStore.getPartition`: look up the partition for the timestamp,
creating an empty one (with a fresh `gob.Encoder`, so no descriptors sent
yet) when absent. -/
def getPartition (fs : FileStore) (ts : Int) : FileStore × String :=
  let key := partitionKey fs.PartitionInterval ts
  match fs.partitions.lookup key with
  | some _ => (fs, key)
  | none =>
    let tstart := ts - Int.emod ts fs.PartitionInterval
    let part : Partition :=
      ⟨"partition_" ++ key ++ ".gob", tstart, tstart + fs.PartitionInterval,
        [], false, 0⟩
    ({ fs with partitions := (key, part) :: fs.partitions }, key)

/-- One `Encoder.Encode` call on a partition's encoder: record the current
file size as the offset, then append the value message, preceded by the
type descriptors when this is the encoder's first message. -/
def gobEncode (p : Partition) (e : LogEntry) : Partition × Nat :=
  let offset := p.file.length
  let msgs := if p.headerSent then [GobItem.value e]
              else [GobItem.typeDef, GobItem.value e]
  ({ p with file := p.file ++ msgs, headerSent := true, count := p.count + 1 },
    offset)

/-- A fresh `gob.NewDecoder` started at a given offset of the partition
file, as `FileStore.Get` does after `file.Seek(idx.offset, 0)`: decoding
succeeds only when the stream at that point opens with the type descriptors
(a fresh decoder fails on a bare value message whose type id it has never
received). -/
def gobDecodeAt (file : List GobItem) (off : Nat) : Option LogEntry :=
  match file.drop off with
  | GobItem.typeDef :: GobItem.value e :: _ => some e
  | _ => none

/-- `FileStore.Write` from `internal/storage/store.go`: resolve-or-create
the partition, capture the current file size as the offset, encode the
entry, index the identifier (map assignment), and bump the stats. -/
def FileStore.Write (fs : FileStore) (e : LogEntry) : FileStore :=
  let fk := getPartition fs e.timestamp
  let fs := fk.1
  let key := fk.2
  match fs.partitions.lookup key with
  | none => fs
  | some part =>
    let po := gobEncode part e
    { fs with
      partitions := (key, po.1) :: fs.partitions.filter (fun p => !(p.1 == key)),
      index := (e.id, ⟨e.id, po.1.path, po.2, e.timestamp⟩) ::
        fs.index.filter (fun p => !(p.1 == e.id)),
      TotalEntries := fs.TotalEntries + 1 }

/-- `FileStore.Get` from `internal/storage/store.go`: O(1) index lookup,
open the partition file, seek to the recorded offset, decode with a fresh
`gob.Decoder`. -/
def FileStore.Get (fs : FileStore) (id : String) : Option LogEntry :=
  match fs.index.lookup id with
  | none => none
  | some idx =>
    match (fs.partitions.filter (fun p => p.2.path == idx.partition)).head? with
    | none => none
    | some kp => gobDecodeAt kp.2.file idx.offset

end Storage

namespace Tailer

/-- Persisted per-file tailer state, `internal/tailer/tailer.go`
(`FileState`). -/
structure FileState where
  Path    : String
  Offset  : Nat
  Inode   : Nat
  Device  : Nat
  Size    : Nat
  ModTime : Int
deriving DecidableEq, Repr

/-- The identity and metadata `os.Stat` reports for the file currently at a
path. -/
structure StatInfo where
  inode   : Nat
  device  : Nat
  size    : Nat
  modTime : Int
deriving DecidableEq, Repr

/-- `FileTailer.AddFile` from `internal/tailer/tailer.go`, acting on the
file-state map (symlinks already resolved): when the path is already present
in the map — in particular when a persisted state was restored by
`loadState` — it returns immediately, keeping the stored state untouched and
starting no reader; otherwise it stores a fresh state at offset 0 built from
the stat result and starts a per-file reader.  Returns the new map and
whether a reader goroutine was started. -/
def AddFile (states : List (String × FileState)) (path : String)
    (st : StatInfo) : List (String × FileState) × Bool :=
  if (states.lookup path).isSome then (states, false)
  else
    ((path, ⟨path, 0, st.inode, st.device, st.size, st.modTime⟩) :: states,
      true)

/-- The offset a per-file reader started by `FileTailer.tailFile` seeks to:
the `Offset` stored in the state map for its path, whatever that state's
recorded identity. -/
def tailFileStartOffset (states : List (String × FileState)) (path : String) :
    Option Nat :=
  (states.lookup path).map (·.Offset)

/-- The environment one iteration of the `tailFile` read loop runs in: the
complete records available through the open handle (offsets abstracted to
record indices), together with the (device, inode) the path currently
resolves to. -/
structure TailEnv where
  lines     : List String
  curInode  : Nat
  curDevice : Nat
deriving DecidableEq, Repr

/-- One read cycle of `FileTailer.tailFile` (the `default` branch of its
loop): `reader.ReadString` either yields the next complete record and
advances the offset, or hits EOF and the loop sleeps.  The loop body
performs no `stat` of the path. -/
def readCycle (env : TailEnv) (off : Nat) : Option (String × Nat) :=
  match env.lines.drop off with
  | [] => none
  | l :: _ => some (l, off + 1)

end Tailer

namespace CloneHeap

/-- A Go value as stored in `LogEntry.Fields` or in a nested container:
either a scalar, or a reference to a heap cell holding a map or slice.
Assigning a `GoVal` copies the reference, not the referenced cell — Go map
and slice values have reference semantics. -/
inductive GoVal where
  | vstr (s : String)
  | vint (n : Int)
  | vref (addr : Nat)
deriving DecidableEq, Repr

/-- A heap cell: a slice or a string-keyed map. -/
inductive HCell where
  | hslice (xs : List GoVal)
  | hmap (m : List (String × GoVal))
deriving DecidableEq, Repr

/-- The heap: cells addressed by position. -/
abbrev Heap := List HCell

/-- Read a heap cell (reads of dangling addresses yield an empty map; the
concrete inputs below stay in bounds). -/
def heapGet (h : Heap) (a : Nat) : HCell :=
  List.getD h a (HCell.hmap [])

/-- Overwrite a heap cell in place. -/
def heapSet (h : Heap) (a : Nat) (c : HCell) : Heap :=
  List.set h a c

/-- `LogEntry` with its reference-typed members explicit:
`Fields map[string]interface{}` and `Tags []string` are references into the
heap; the remaining fields are scalars (collapsed to the ones the claim
exercises). -/
structure EntryH where
  id         : String
  message    : String
  fieldsAddr : Nat
  tagsAddr   : Nat
deriving DecidableEq, Repr

/-- `LogEntry.Clone` from `pkg/models/log_entry.go` as a heap transformer:
allocate a fresh `Fields` map and a fresh `Tags` slice, copy the scalar
fields, then copy the map bindings one by one (`clone.Fields[k] = v`) and
`copy` the tags.  The copied bindings are `GoVal`s: references stored inside
`Fields` are copied as references, so nested cells are shared with the
original. -/
def clone (h : Heap) (l : EntryH) : Heap × EntryH :=
  let fcell := heapGet h l.fieldsAddr
  let tcell := heapGet h l.tagsAddr
  let newFields := List.length h
  let newTags := List.length h + 1
  (h ++ [fcell, tcell],
    { l with fieldsAddr := newFields, tagsAddr := newTags })

/-- Write one element of a slice cell (`v[i] = x` through a slice reference
reachable from a `Fields` map). -/
def setSliceElem (h : Heap) (a : Nat) (i : Nat) (v : GoVal) : Heap :=
  match heapGet h a with
  | HCell.hslice xs => heapSet h a (HCell.hslice (xs.set i v))
  | HCell.hmap _ => h

/-- A fully resolved value tree, for observing an entry's contents through
the heap. -/
inductive PureVal where
  | pstr (s : String)
  | pint (n : Int)
  | parr (xs : List PureVal)
  | pmap (m : List (String × PureVal))
  | pbad

/-- Resolve a `GoVal` to the value tree it denotes, chasing references
(fuel-bounded; the concrete inputs below are acyclic and shallow). -/
def resolve : Nat → Heap → GoVal → PureVal
  | 0, _, _ => PureVal.pbad
  | _ + 1, _, GoVal.vstr s => PureVal.pstr s
  | _ + 1, _, GoVal.vint n => PureVal.pint n
  | fuel + 1, h, GoVal.vref a =>
    match heapGet h a with
    | HCell.hslice xs => PureVal.parr (xs.map (resolve fuel h))
    | HCell.hmap m => PureVal.pmap (m.map fun p => (p.1, resolve fuel h p.2))

/-- Look up a binding of an entry's `Fields` map. -/
def getFieldVal (h : Heap) (l : EntryH) (k : String) : Option GoVal :=
  match heapGet h l.fieldsAddr with
  | HCell.hmap m => m.lookup k
  | HCell.hslice _ => none

/-- Observe a field of an entry as a fully resolved value tree. -/
def getFieldDeep (fuel : Nat) (h : Heap) (l : EntryH) (k : String) :
    Option PureVal :=
  (getFieldVal h l k).map (resolve fuel h)

/-- Concrete heap for exercising `Clone`: entry 0 is a `Fields` map whose
key `k` holds a nested slice (cell 1) containing the string `a`; cell 2 is
the entry's empty `Tags` slice. -/
def demoHeap : Heap :=
  [HCell.hmap [("k", GoVal.vref 1)], HCell.hslice [GoVal.vstr "a"],
    HCell.hslice []]

/-- The entry owning cells 0 and 2 of `demoHeap`. -/
def demoEntry : EntryH := ⟨"id-1", "msg", 0, 2⟩

/-- The heap after cloning `demoEntry` and then assigning `"b"` to element 0
of the nested slice reached through the clone's `Fields["k"]`. -/
def demoMutated : Heap :=
  setSliceElem (clone demoHeap demoEntry).1
    (match getFieldVal (clone demoHeap demoEntry).1 (clone demoHeap demoEntry).2 "k" with
      | some (GoVal.vref a) => a
      | _ => 99) 0 (GoVal.vstr "b")

end CloneHeap

namespace Storage

open Models

/-- Two concrete entries falling in the same 24-hour partition. -/
def sampleEntryA : LogEntry := ⟨"id-a", 100, .info, "alpha", "src", "host", "svc", "raw-a"⟩

/-- Second sample entry; see `sampleEntryA`. -/
def sampleEntryB : LogEntry := ⟨"id-b", 200, .info, "beta", "src", "host", "svc", "raw-b"⟩

/-- The store after writing `sampleEntryA` then `sampleEntryB` (default
24-hour partition interval, in nanoseconds). -/
def sampleStore : FileStore :=
  ((FileStore.empty 86400000000000).Write sampleEntryA).Write sampleEntryB

end Storage

namespace Tailer

/-- A state map as restored by `loadState` on restart: one file previously
read to offset 5, recorded with identity (device 1, inode 10). -/
def restoredStates : List (String × FileState) :=
  [("app.log", ⟨"app.log", 5, 10, 1, 100, 0⟩)]

/-- What `os.Stat` reports for the file now at that path after a rotation:
same device, different inode. -/
def rotatedStat : StatInfo := ⟨99, 1, 50, 7⟩

end Tailer

section Theorems

open Models

/-- Claim C1 (refuted by the code, spec is the intent): the spec promises
that `Get(i)` returns the written entry for every write sequence, but
`FileStore.Get` seeks a fresh `gob.Decoder` to the recorded byte offset,
where — for every entry after the first of a partition — the stream holds a
bare value message whose type descriptors were only transmitted at the start
of the stream, so decoding fails.  Concretely: after writing `sampleEntryA`
then `sampleEntryB` into the same (single) partition, `Get "id-b"` fails
while `Get "id-a"` (offset 0, descriptors present) round-trips. -/
theorem C1_get_fails_for_second_entry :
    Storage.sampleStore.Get "id-b" = none ∧
    Storage.sampleStore.Get "id-a" = some Storage.sampleEntryA ∧
    Storage.sampleEntryB.id = "id-b" ∧
    Storage.sampleStore.TotalEntries = 2 ∧
    Storage.sampleStore.partitions.length = 1 :=
  ⟨rfl, rfl, rfl, rfl, rfl⟩

/-- Claim C6, counterexample: the claim says an entry whose timestamp equals
`TimeRange.End` is not contained, but `TimeRange.Contains` is inclusive at
both endpoints, and the `readPartition` scan therefore keeps an entry whose
timestamp equals `End`. -/
theorem C6_counterexample :
    Models.TimeRange.Contains ⟨0, 100⟩ 100 = true ∧
    Storage.readPartition
        [⟨"id-e", 100, .info, "msg", "s", "h", "svc", "r"⟩]
        ⟨"", ⟨0, 100⟩, [], 10, 0, "timestamp", "desc", []⟩
      = [⟨"id-e", 100, .info, "msg", "s", "h", "svc", "r"⟩] :=
  ⟨rfl, rfl⟩

/-- Claim C6 as amended: the containment test used when scanning entries is
inclusive at both ends — an entry whose timestamp equals `TimeRange.Start`
or `TimeRange.End` is contained — and `readPartition` keeps exactly the
entries whose timestamp the range contains and whose message passes the
substring test. -/
theorem C6_amended :
    (∀ (tr : Models.TimeRange) (t : Int),
      tr.Contains t = true ↔ tr.Start ≤ t ∧ t ≤ tr.End) ∧
    (∀ (q : Models.SearchQuery) (es : List Models.LogEntry)
        (e : Models.LogEntry),
      e ∈ Storage.readPartition es q ↔
        e ∈ es ∧ q.TimeRange.Contains e.timestamp = true ∧
          (q.Query = "" ∨ Storage.containsIgnoreCase e.message q.Query = true)) := by
  constructor
  · intro tr t
    simp [Models.TimeRange.Contains]
  · intro q es e
    simp only [Storage.readPartition, List.mem_filter, Storage.entryMatches,
      Bool.and_eq_true, Bool.or_eq_true, beq_iff_eq]

/-- Witness for `C6_amended` at concrete inputs. -/
theorem C6_amended_witness :
    Models.TimeRange.Contains ⟨0, 100⟩ 100 = true ∧
    (⟨"id-e", 100, .info, "msg", "s", "h", "svc", "r"⟩ : Models.LogEntry) ∈
      Storage.readPartition
        [⟨"id-e", 100, .info, "msg", "s", "h", "svc", "r"⟩]
        ⟨"", ⟨0, 100⟩, [], 10, 0, "timestamp", "desc", []⟩ :=
  ⟨(C6_amended.1 ⟨0, 100⟩ 100).mpr (by constructor <;> decide),
    (C6_amended.2 ⟨"", ⟨0, 100⟩, [], 10, 0, "timestamp", "desc", []⟩
        [⟨"id-e", 100, .info, "msg", "s", "h", "svc", "r"⟩]
        ⟨"id-e", 100, .info, "msg", "s", "h", "svc", "r"⟩).mpr
      (by refine ⟨by simp, by decide, Or.inl rfl⟩)⟩

/-- Claim C7 (refuted by the code, whose own comment says "deep copy"):
`Clone` copies the `Fields` map one level deep, so a nested slice stored
inside `Fields` is shared between original and clone.  Concretely: on
`demoHeap`, field `k` of the original resolves to `["a"]`; the clone's
`Fields["k"]` is the same reference (cell 1); assigning `"b"` to element 0
through the clone changes what the original's field `k` resolves to. -/
theorem C7_clone_shares_nested_values :
    CloneHeap.getFieldDeep 5 CloneHeap.demoHeap CloneHeap.demoEntry "k"
      = some (CloneHeap.PureVal.parr [CloneHeap.PureVal.pstr "a"]) ∧
    CloneHeap.getFieldVal (CloneHeap.clone CloneHeap.demoHeap CloneHeap.demoEntry).1
        (CloneHeap.clone CloneHeap.demoHeap CloneHeap.demoEntry).2 "k"
      = CloneHeap.getFieldVal CloneHeap.demoHeap CloneHeap.demoEntry "k" ∧
    CloneHeap.getFieldDeep 5 CloneHeap.demoMutated CloneHeap.demoEntry "k"
      = some (CloneHeap.PureVal.parr [CloneHeap.PureVal.pstr "b"]) :=
  ⟨rfl, rfl, rfl⟩

/-- Claim C5, counterexample: the persisted state records identity
(device 1, inode 10) at offset 5; the file now at the path has inode 99.
The claim says the restored state may be used only on an identity match and
that otherwise the file is read from offset 0 — but `AddFile` returns early
for any path already in the state map without comparing identities (starting
no reader at all), and the offset a reader would seek remains 5, not 0. -/
theorem C5_counterexample :
    Tailer.AddFile Tailer.restoredStates "app.log" Tailer.rotatedStat
      = (Tailer.restoredStates, false) ∧
    Tailer.tailFileStartOffset Tailer.restoredStates "app.log" = some 5 ∧
    Tailer.rotatedStat.inode ≠ 10 ∧
    (Tailer.restoredStates.lookup "app.log").map (·.Inode) = some 10 :=
  ⟨rfl, rfl, by decide, rfl⟩

/-- Claim C5 as amended: the code performs no (device, inode) comparison
anywhere.  On restart, `AddFile` returns early for any path present in the
restored state map, regardless of the current file identity, leaving the
stored state (and its offset) untouched and starting no reader; a reader,
once started, seeks to whatever offset the state map holds; and a read cycle
of the tail loop never consults the file's current (device, inode) — its
outcome depends only on the record stream of the open handle. -/
theorem C5_amended :
    (∀ (states : List (String × Tailer.FileState)) (path : String)
        (st : Tailer.StatInfo),
      (states.lookup path).isSome = true →
        Tailer.AddFile states path st = (states, false)) ∧
    (∀ (states : List (String × Tailer.FileState)) (path : String)
        (s : Tailer.FileState),
      states.lookup path = some s →
        Tailer.tailFileStartOffset states path = some s.Offset) ∧
    (∀ (env env' : Tailer.TailEnv) (off : Nat),
      env.lines = env'.lines →
        Tailer.readCycle env off = Tailer.readCycle env' off) := by
  refine ⟨fun states path st h => ?_, fun states path s h => ?_,
    fun env env' off h => ?_⟩
  · simp [Tailer.AddFile, h]
  · simp [Tailer.tailFileStartOffset, h]
  · simp [Tailer.readCycle, h]

/-- Witness for `C5_amended` at concrete inputs. -/
theorem C5_amended_witness :
    Tailer.AddFile Tailer.restoredStates "app.log" Tailer.rotatedStat
        = (Tailer.restoredStates, false) ∧
    Tailer.tailFileStartOffset Tailer.restoredStates "app.log" = some 5 ∧
    Tailer.readCycle ⟨["l1"], 10, 1⟩ 0 = Tailer.readCycle ⟨["l1"], 99, 1⟩ 0 :=
  ⟨C5_amended.1 Tailer.restoredStates "app.log" Tailer.rotatedStat (by decide),
    C5_amended.2.1 Tailer.restoredStates "app.log" ⟨"app.log", 5, 10, 1, 100, 0⟩ rfl,
    C5_amended.2.2 ⟨["l1"], 10, 1⟩ ⟨["l1"], 99, 1⟩ 0 rfl⟩

end Theorems

section RetryTheorems

/-- Shape of the backoff list produced by the retry loop from any starting
attempt number: a prefix of the doubling sequence, offset by the starting
attempt, with at most `MaxRetries - attempt` sleeps; the attempt count is
bounded by the remaining fuel. -/
theorem sendWithRetryGo_spec (cfg : Shipper.Config) (outcome : Nat → Bool) :
    ∀ (fuel a : Nat), ∃ k,
      (Shipper.sendWithRetryGo cfg outcome a fuel).2.2 =
        (List.range k).map (fun i => cfg.RetryBackoff * 2 ^ (a + i)) ∧
      k ≤ cfg.MaxRetries - a ∧
      (Shipper.sendWithRetryGo cfg outcome a fuel).2.1 ≤ fuel := by
  intro fuel
  induction fuel with
  | zero =>
    intro a
    exact ⟨0, rfl, Nat.zero_le _, Nat.le_refl 0⟩
  | succ fuel ih =>
    intro a
    by_cases h : outcome a = true
    · refine ⟨0, ?_, Nat.zero_le _, ?_⟩ <;>
        simp [Shipper.sendWithRetryGo, h]
    · obtain ⟨k', hb, hk, ha⟩ := ih (a + 1)
      by_cases hlt : a < cfg.MaxRetries
      · refine ⟨k' + 1, ?_, by omega, ?_⟩
        · simp only [Shipper.sendWithRetryGo, h, if_false, hlt, if_true,
            Bool.false_eq_true, if_neg, ite_true, ite_false]
          rw [hb, List.range_succ_eq_map, List.map_cons, List.map_map]
          simp only [Nat.add_zero, List.cons_append, List.nil_append,
            List.singleton_append]
          congr 1
          apply List.map_congr_left
          intro i _
          simp only [Function.comp_apply]
          congr 2
          omega
        · simp only [Shipper.sendWithRetryGo, h, Bool.false_eq_true,
            ite_false]
          omega
      · have hk0 : k' = 0 := by omega
        refine ⟨0, ?_, Nat.zero_le _, ?_⟩
        · simp only [Shipper.sendWithRetryGo, h, Bool.false_eq_true,
            ite_false, hlt]
          rw [hb, hk0]
          simp
        · simp only [Shipper.sendWithRetryGo, h, Bool.false_eq_true,
            ite_false]
          omega

/-- Claim C8, counterexample: with `MaxRetries = 1` and every send failing,
`sendWithRetry` performs 2 send attempts (the Go loop runs
`attempt = 0 .. MaxRetries` inclusive), exceeding the claimed bound of
`MaxRetries` attempts; one backoff of `RetryBackoff * 2^0 = 7` is slept. -/
theorem C8_counterexample :
    (Shipper.sendWithRetry ⟨1, 7, 5, 2, 30⟩ (fun _ => false)).2.1 = 2 ∧
    ¬((Shipper.sendWithRetry ⟨1, 7, 5, 2, 30⟩ (fun _ => false)).2.1 ≤
        (⟨1, 7, 5, 2, 30⟩ : Shipper.Config).MaxRetries) ∧
    (Shipper.sendWithRetry ⟨1, 7, 5, 2, 30⟩ (fun _ => false)).2.2 = [7] := by
  refine ⟨rfl, by decide, rfl⟩

/-- Claim C8 as amended: `sendWithRetry` performs at most `MaxRetries + 1`
send attempts, sleeps at most `MaxRetries` backoffs, and the backoff slept
after the failed attempt numbered `i` (counting from 0) equals
`RetryBackoff * 2 ^ i`. -/
theorem C8_amended (cfg : Shipper.Config) (outcome : Nat → Bool) :
    (Shipper.sendWithRetry cfg outcome).2.1 ≤ cfg.MaxRetries + 1 ∧
    (Shipper.sendWithRetry cfg outcome).2.2.length ≤ cfg.MaxRetries ∧
    (Shipper.sendWithRetry cfg outcome).2.2 =
      (List.range (Shipper.sendWithRetry cfg outcome).2.2.length).map
        (fun i => cfg.RetryBackoff * 2 ^ i) := by
  obtain ⟨k, hb, hk, ha⟩ :=
    sendWithRetryGo_spec cfg outcome (cfg.MaxRetries + 1) 0
  unfold Shipper.sendWithRetry
  refine ⟨ha, ?_, ?_⟩
  · rw [hb]
    simp only [List.length_map, List.length_range]
    omega
  · rw [hb]
    simp only [List.length_map, List.length_range, Nat.zero_add]

end RetryTheorems

section CircuitTheorems

/-- Once Open, further recorded failures leave the circuit Open. -/
theorem recordFailure_open (cfg : Shipper.Config) (now : Nat)
    (ep : Shipper.Endpoint) (h : ep.state = .circuitOpen) :
    (Shipper.recordFailure cfg now ep).state = .circuitOpen := by
  simp only [Shipper.recordFailure, h]
  split_ifs <;> simp_all

/-- Once Open, a whole sequence of recorded failures leaves the circuit
Open. -/
theorem recordFailures_open (cfg : Shipper.Config) :
    ∀ (ts : List Nat) (ep : Shipper.Endpoint), ep.state = .circuitOpen →
      (Shipper.recordFailures cfg ts ep).state = .circuitOpen := by
  intro ts
  induction ts with
  | nil => intro ep h; exact h
  | cons t ts ih =>
    intro ep h
    exact ih _ (recordFailure_open cfg t ep h)

/-- A recorded failure on a Closed endpoint bumps the consecutive-failure
counter and opens the circuit exactly when the counter reaches
`FailureThreshold`. -/
theorem recordFailure_closed (cfg : Shipper.Config) (now : Nat)
    (ep : Shipper.Endpoint) (h : ep.state = .circuitClosed) :
    (Shipper.recordFailure cfg now ep).consecutiveFail
        = ep.consecutiveFail + 1 ∧
    (Shipper.recordFailure cfg now ep).state =
      (if cfg.FailureThreshold ≤ ep.consecutiveFail + 1 then .circuitOpen
        else .circuitClosed) := by
  simp only [Shipper.recordFailure, h]
  split_ifs <;> simp_all

/-- From Closed, enough consecutive recorded failures open the circuit. -/
theorem recordFailures_closed (cfg : Shipper.Config) :
    ∀ (ts : List Nat) (ep : Shipper.Endpoint), ep.state = .circuitClosed →
      cfg.FailureThreshold ≤ ep.consecutiveFail + ts.length → ts ≠ [] →
      (Shipper.recordFailures cfg ts ep).state = .circuitOpen := by
  intro ts
  induction ts with
  | nil => intro ep _ _ hne; exact absurd rfl hne
  | cons t ts ih =>
    intro ep h hth _
    obtain ⟨hc, hs⟩ := recordFailure_closed cfg t ep h
    by_cases hones : cfg.FailureThreshold ≤ ep.consecutiveFail + 1
    · have : (Shipper.recordFailure cfg t ep).state = .circuitOpen := by
        rw [hs, if_pos hones]
      exact recordFailures_open cfg ts _ this
    · have hstate : (Shipper.recordFailure cfg t ep).state = .circuitClosed := by
        rw [hs, if_neg hones]
      have hne : ts ≠ [] := by
        intro he
        subst he
        simp only [List.length_cons, List.length_nil] at hth
        omega
      apply ih _ hstate _ hne
      rw [hc]
      simp only [List.length_cons] at hth
      omega

/-- Claim C3, counterexample: with `SuccessThreshold = 2`, an endpoint that
recorded one success while Closed, then opened and re-entered HalfOpen,
returns to Closed after a single success recorded while in HalfOpen —
because `recordSuccess` compares the cumulative `successes` counter (still
holding the pre-open success) against the threshold, not the successes
recorded while HalfOpen. -/
theorem C3_counterexample :
    Shipper.demoHalfOpenEp.state = .circuitHalfOpen ∧
    Shipper.demoHalfOpenEp.successes = 1 ∧
    Shipper.demoCfg.SuccessThreshold = 2 ∧
    (Shipper.recordSuccess Shipper.demoCfg Shipper.demoHalfOpenEp).state
      = .circuitClosed := by
  refine ⟨rfl, rfl, rfl, rfl⟩

/-- Claim C3 as amended: (1) from Closed, `FailureThreshold` (or more, at
least one) consecutive recorded failures leave the circuit Open; (2) an Open
endpoint is not selected while at most `OpenTimeout` has elapsed since its
last failure; (3) once strictly more has elapsed, the eligibility check
returns it as selectable and moves it to HalfOpen; (4) from HalfOpen, one
recorded success returns it to Closed exactly when the cumulative success
counter (which also counts successes recorded before the circuit opened, and
is reset only on the HalfOpen-to-Closed transition or by a failure recorded
in HalfOpen) reaches `SuccessThreshold`; (5) a single recorded failure in
HalfOpen returns it to Open. -/
theorem C3_amended (cfg : Shipper.Config) :
    (∀ (ep : Shipper.Endpoint) (ts : List Nat),
      ep.state = .circuitClosed → 1 ≤ ts.length →
      cfg.FailureThreshold ≤ ts.length →
      (Shipper.recordFailures cfg ts ep).state = .circuitOpen) ∧
    (∀ (ep : Shipper.Endpoint) (now : Nat),
      ep.state = .circuitOpen → now - ep.lastFailure ≤ cfg.OpenTimeout →
      Shipper.selectCheck cfg now ep = (false, ep)) ∧
    (∀ (ep : Shipper.Endpoint) (now : Nat),
      ep.state = .circuitOpen → cfg.OpenTimeout < now - ep.lastFailure →
      (Shipper.selectCheck cfg now ep).1 = true ∧
      (Shipper.selectCheck cfg now ep).2.state = .circuitHalfOpen) ∧
    (∀ ep : Shipper.Endpoint, ep.state = .circuitHalfOpen →
      ((Shipper.recordSuccess cfg ep).state = .circuitClosed ↔
        cfg.SuccessThreshold ≤ ep.successes + 1)) ∧
    (∀ (ep : Shipper.Endpoint) (now : Nat), ep.state = .circuitHalfOpen →
      (Shipper.recordFailure cfg now ep).state = .circuitOpen) := by
  refine ⟨?_, ?_, ?_, ?_, ?_⟩
  · intro ep ts h h1 hth
    apply recordFailures_closed cfg ts ep h (by omega)
    intro he
    subst he
    simp at h1
  · intro ep now h hle
    simp only [Shipper.selectCheck, h]
    rw [if_neg (by omega)]
  · intro ep now h hlt
    simp only [Shipper.selectCheck, h]
    rw [if_pos hlt]
    exact ⟨rfl, rfl⟩
  · intro ep h
    simp only [Shipper.recordSuccess, h]
    split_ifs with hc <;> simp_all
  · intro ep now h
    simp [Shipper.recordFailure, h]

/-- Witness for `C3_amended` at concrete inputs (`FailureThreshold = 2`,
`SuccessThreshold = 1`, `OpenTimeout = 5`). -/
theorem C3_amended_witness :
    (Shipper.recordFailures ⟨0, 0, 2, 1, 5⟩ [3, 4]
        ⟨.circuitClosed, 0, 0, 0, 0⟩).state = .circuitOpen ∧
    Shipper.selectCheck ⟨0, 0, 2, 1, 5⟩ 6 ⟨.circuitOpen, 2, 0, 2, 4⟩
      = (false, ⟨.circuitOpen, 2, 0, 2, 4⟩) ∧
    (Shipper.selectCheck ⟨0, 0, 2, 1, 5⟩ 100 ⟨.circuitOpen, 2, 0, 2, 4⟩).1
      = true ∧
    (Shipper.recordSuccess ⟨0, 0, 2, 1, 5⟩
        ⟨.circuitHalfOpen, 2, 0, 0, 4⟩).state = .circuitClosed ∧
    (Shipper.recordFailure ⟨0, 0, 2, 1, 5⟩ 9
        ⟨.circuitHalfOpen, 2, 0, 0, 4⟩).state = .circuitOpen :=
  ⟨(C3_amended ⟨0, 0, 2, 1, 5⟩).1 ⟨.circuitClosed, 0, 0, 0, 0⟩ [3, 4] rfl
      (by decide) (by decide),
    (C3_amended ⟨0, 0, 2, 1, 5⟩).2.1 ⟨.circuitOpen, 2, 0, 2, 4⟩ 6 rfl
      (by decide),
    ((C3_amended ⟨0, 0, 2, 1, 5⟩).2.2.1 ⟨.circuitOpen, 2, 0, 2, 4⟩ 100 rfl
      (by decide)).1,
    ((C3_amended ⟨0, 0, 2, 1, 5⟩).2.2.2.1 ⟨.circuitHalfOpen, 2, 0, 0, 4⟩
      rfl).mpr (by decide),
    (C3_amended ⟨0, 0, 2, 1, 5⟩).2.2.2.2 ⟨.circuitHalfOpen, 2, 0, 0, 4⟩ 9 rfl⟩

end CircuitTheorems

section ReceiverTheorems

open Models

/-- When the handoff loop reports success, the channel queue was extended by
exactly the batch's entries in order, and `LogsReceived` grew by their
count; the remaining counters are untouched. -/
theorem sendEntries_true :
    ∀ (es : List LogEntry) (ch : Receiver.Chan) (st : Receiver.Stats),
      (Receiver.sendEntries es ch st).1 = true →
      Receiver.sendEntries es ch st =
        (true, ⟨ch.buf ++ es, ch.cap⟩,
          { st with LogsReceived := st.LogsReceived + es.length }) := by
  intro es
  induction es with
  | nil =>
    intro ch st _
    simp [Receiver.sendEntries]
  | cons e rest ih =>
    intro ch st h
    by_cases hlt : ch.buf.length < ch.cap
    · simp only [Receiver.sendEntries, if_pos hlt] at h ⊢
      rw [ih _ _ h]
      simp only [Prod.mk.injEq, Receiver.Chan.mk.injEq,
        Receiver.Stats.mk.injEq, List.append_assoc, List.singleton_append,
        List.length_cons, true_and, and_true]
      omega
    · simp only [Receiver.sendEntries, if_neg hlt] at h
      cases h

/-- When the channel has exactly `f` free slots and the batch is longer,
the handoff loop fails, having enqueued precisely the first `f` entries and
counted them in `LogsReceived`. -/
theorem sendEntries_full :
    ∀ (es : List LogEntry) (ch : Receiver.Chan) (st : Receiver.Stats)
      (f : Nat), ch.cap = ch.buf.length + f → f < es.length →
      Receiver.sendEntries es ch st =
        (false, ⟨ch.buf ++ es.take f, ch.cap⟩,
          { st with LogsReceived := st.LogsReceived + f }) := by
  intro es
  induction es with
  | nil =>
    intro ch st f _ hlt
    simp at hlt
  | cons e rest ih =>
    intro ch st f hcap hlt
    match f with
    | 0 =>
      have hnlt : ¬ ch.buf.length < ch.cap := by omega
      simp [Receiver.sendEntries, if_neg hnlt]
    | f' + 1 =>
      have hl : ch.buf.length < ch.cap := by omega
      simp only [Receiver.sendEntries, if_pos hl]
      rw [ih ⟨ch.buf ++ [e], ch.cap⟩ _ f' (by simp; omega)
        (by simp at hlt ⊢; omega)]
      simp only [Prod.mk.injEq, Receiver.Chan.mk.injEq,
        Receiver.Stats.mk.injEq, List.append_assoc, List.singleton_append,
        List.take_succ_cons, true_and, and_true]
      omega

/-- A 200 answer from `handleIngest` can only come out of the final branch:
the request carried a decoded batch, the whole handoff loop succeeded, and
the response body counts that batch's entries. -/
theorem handleIngest_200_inv (cfg : Receiver.Config)
    (req : Receiver.IngestRequest) (ch : Receiver.Chan) (st : Receiver.Stats)
    (resp : Receiver.IngestResponse) (ch' : Receiver.Chan)
    (st' : Receiver.Stats)
    (hE : Receiver.handleIngest cfg req ch st = (resp, ch', st'))
    (h200 : resp.status = 200) :
    ∃ b, req.batch = some b ∧ resp.received = some b.Entries.length ∧
      Receiver.sendEntries b.Entries ch
          { st with
            RequestsReceived := st.RequestsReceived + 1,
            BytesReceived := st.BytesReceived + req.bodyLen }
        = (true, ch', st') := by
  simp only [Receiver.handleIngest] at hE
  split at hE
  · cases hE
    cases h200
  split at hE
  · cases hE
    cases h200
  split at hE
  · cases hE
    cases h200
  split at hE
  · cases hE
    cases h200
  case _ b heq =>
    split at hE
    · cases hE
      cases h200
    split at hE
    case _ hok =>
      cases hE
      refine ⟨b, heq, rfl, ?_⟩
      rw [sendEntries_true b.Entries ch _ hok]
    · cases hE
      cases h200

/-- Claim C2 (confirmed): whenever `handleIngest` answers 200 with
`received = n`, the request carried a decoded batch of exactly `n` entries,
all `n` of them were appended, in order, to the output channel, and
`LogsReceived` grew by exactly `n`. -/
theorem C2_ingest_200 (cfg : Receiver.Config) (req : Receiver.IngestRequest)
    (ch : Receiver.Chan) (st : Receiver.Stats) (n : Nat)
    (h : (Receiver.handleIngest cfg req ch st).1 = ⟨200, some n⟩) :
    ∃ b, req.batch = some b ∧ n = b.Entries.length ∧
      (Receiver.handleIngest cfg req ch st).2.1 =
        ⟨ch.buf ++ b.Entries, ch.cap⟩ ∧
      (Receiver.handleIngest cfg req ch st).2.2.LogsReceived =
        st.LogsReceived + n := by
  rcases hE : Receiver.handleIngest cfg req ch st with ⟨resp, ch2, st2⟩
  rw [hE] at h
  simp only at h
  subst h
  obtain ⟨b, hb, hrec, hsend⟩ :=
    handleIngest_200_inv cfg req ch st _ ch2 st2 hE rfl
  have hok : (Receiver.sendEntries b.Entries ch
      { st with
        RequestsReceived := st.RequestsReceived + 1,
        BytesReceived := st.BytesReceived + req.bodyLen }).1 = true := by
    rw [hsend]
  rw [sendEntries_true b.Entries ch _ hok] at hsend
  have hchan : ch2 = ⟨ch.buf ++ b.Entries, ch.cap⟩ := by
    have := congrArg (fun p => p.2.1) hsend
    simpa using this.symm
  have hstats : st2.LogsReceived = st.LogsReceived + b.Entries.length := by
    have := congrArg (fun p => p.2.2.LogsReceived) hsend
    simpa using this.symm
  have hn : n = b.Entries.length := by
    simpa using hrec
  exact ⟨b, hb, hn, by rw [hchan], by rw [hstats, hn]⟩

/-- Witness for `C2_ingest_200`: a 2-entry batch through an empty channel of
capacity 4. -/
theorem C2_ingest_200_witness :
    ∃ b, (Receiver.IngestRequest.mk "POST" true true 3
        (some ⟨[⟨"w1", 1, .info, "m1", "s", "h", "v", "r1"⟩,
                ⟨"w2", 2, .info, "m2", "s", "h", "v", "r2"⟩],
          "b1", "agent", 0, false, ""⟩)).batch = some b ∧
      2 = b.Entries.length ∧
      (Receiver.handleIngest ⟨10, 5⟩
          ⟨"POST", true, true, 3,
            some ⟨[⟨"w1", 1, .info, "m1", "s", "h", "v", "r1"⟩,
                  ⟨"w2", 2, .info, "m2", "s", "h", "v", "r2"⟩],
              "b1", "agent", 0, false, ""⟩⟩
          ⟨[], 4⟩ ⟨0, 0, 0, 0⟩).2.1 =
        ⟨([] : List LogEntry) ++ b.Entries, 4⟩ ∧
      (Receiver.handleIngest ⟨10, 5⟩
          ⟨"POST", true, true, 3,
            some ⟨[⟨"w1", 1, .info, "m1", "s", "h", "v", "r1"⟩,
                  ⟨"w2", 2, .info, "m2", "s", "h", "v", "r2"⟩],
              "b1", "agent", 0, false, ""⟩⟩
          ⟨[], 4⟩ ⟨0, 0, 0, 0⟩).2.2.LogsReceived = 0 + 2 :=
  C2_ingest_200 ⟨10, 5⟩ _ ⟨[], 4⟩ ⟨0, 0, 0, 0⟩ 2 rfl

/-- Claim C10 (confirmed): the batch handoff is not atomic on error — when
the output channel has only `f` free slots and the (valid, size-checked)
batch holds more than `f` entries, `handleIngest` answers 503, yet the first
`f` entries remain enqueued on the output channel and counted in
`LogsReceived`; nothing is rolled back, so a retry of the same batch would
enqueue that prefix a second time. -/
theorem C10_partial_enqueue (cfg : Receiver.Config)
    (req : Receiver.IngestRequest) (ch : Receiver.Chan) (st : Receiver.Stats)
    (b : Batch) (f : Nat)
    (hm : req.method = "POST") (hr : req.rateLimitOk = true)
    (hd : req.decompressOk = true) (hb : req.batch = some b)
    (hsz : b.Entries.length ≤ cfg.MaxBatchSize)
    (hcap : ch.cap = ch.buf.length + f) (hlt : f < b.Entries.length) :
    (Receiver.handleIngest cfg req ch st).1 = ⟨503, none⟩ ∧
    (Receiver.handleIngest cfg req ch st).2.1 =
      ⟨ch.buf ++ b.Entries.take f, ch.cap⟩ ∧
    (Receiver.handleIngest cfg req ch st).2.2.LogsReceived =
      st.LogsReceived + f := by
  have hfail := sendEntries_full b.Entries ch
    { st with
      RequestsReceived := st.RequestsReceived + 1,
      BytesReceived := st.BytesReceived + req.bodyLen } f hcap hlt
  simp only [Receiver.handleIngest, hm, hr, hd, hb, ne_eq,
    not_true_eq_false, if_false, Bool.not_true, Bool.false_eq_true,
    ite_false]
  rw [if_neg (by omega), hfail]
  simp

/-- Witness for `C10_partial_enqueue`: a 2-entry batch against a channel
with a single free slot. -/
theorem C10_partial_enqueue_witness :
    (Receiver.handleIngest ⟨10, 5⟩
        ⟨"POST", true, true, 3,
          some ⟨[⟨"w1", 1, .info, "m1", "s", "h", "v", "r1"⟩,
                ⟨"w2", 2, .info, "m2", "s", "h", "v", "r2"⟩],
            "b1", "agent", 0, false, ""⟩⟩
        ⟨[], 1⟩ ⟨0, 0, 0, 0⟩).1 = ⟨503, none⟩ ∧
    (Receiver.handleIngest ⟨10, 5⟩
        ⟨"POST", true, true, 3,
          some ⟨[⟨"w1", 1, .info, "m1", "s", "h", "v", "r1"⟩,
                ⟨"w2", 2, .info, "m2", "s", "h", "v", "r2"⟩],
            "b1", "agent", 0, false, ""⟩⟩
        ⟨[], 1⟩ ⟨0, 0, 0, 0⟩).2.1 =
      ⟨([] : List LogEntry) ++
        ([⟨"w1", 1, .info, "m1", "s", "h", "v", "r1"⟩,
          ⟨"w2", 2, .info, "m2", "s", "h", "v", "r2"⟩] :
            List LogEntry).take 1,
        1⟩ ∧
    (Receiver.handleIngest ⟨10, 5⟩
        ⟨"POST", true, true, 3,
          some ⟨[⟨"w1", 1, .info, "m1", "s", "h", "v", "r1"⟩,
                ⟨"w2", 2, .info, "m2", "s", "h", "v", "r2"⟩],
            "b1", "agent", 0, false, ""⟩⟩
        ⟨[], 1⟩ ⟨0, 0, 0, 0⟩).2.2.LogsReceived = 0 + 1 :=
  C10_partial_enqueue ⟨10, 5⟩ _ ⟨[], 1⟩ ⟨0, 0, 0, 0⟩
    ⟨[⟨"w1", 1, .info, "m1", "s", "h", "v", "r1"⟩,
      ⟨"w2", 2, .info, "m2", "s", "h", "v", "r2"⟩],
      "b1", "agent", 0, false, ""⟩
    1 rfl rfl rfl rfl (by decide) (by decide) (by decide)

end ReceiverTheorems

section CacheTheorems

open Models

/-- `validateQuery` never touches the query string or the time range, and
rewrites the sort fields only to fill in defaults. -/
theorem validateQuery_fields (q : SearchQuery) :
    (QueryEngine.validateQuery q).Query = q.Query ∧
    (QueryEngine.validateQuery q).TimeRange = q.TimeRange ∧
    (QueryEngine.validateQuery q).SortBy =
      (if q.SortBy = "" then "timestamp" else q.SortBy) ∧
    (QueryEngine.validateQuery q).SortOrder =
      (if q.SortOrder = "" then "desc" else q.SortOrder) :=
  ⟨rfl, rfl, rfl, rfl⟩

/-- Two queries that agree on the five cache-key components get the same
cache key after validation — whatever their limits, offsets, filters or
projected fields. -/
theorem queryCacheKey_validate_congr (q1 q2 : SearchQuery)
    (hq : q1.Query = q2.Query)
    (hs : q1.TimeRange.Start = q2.TimeRange.Start)
    (he : q1.TimeRange.End = q2.TimeRange.End)
    (hsb : q1.SortBy = q2.SortBy) (hso : q1.SortOrder = q2.SortOrder) :
    QueryEngine.queryCacheKey (QueryEngine.validateQuery q1) =
      QueryEngine.queryCacheKey (QueryEngine.validateQuery q2) := by
  obtain ⟨ha1, hb1, hc1, hd1⟩ := validateQuery_fields q1
  obtain ⟨ha2, hb2, hc2, hd2⟩ := validateQuery_fields q2
  unfold QueryEngine.queryCacheKey
  rw [ha1, ha2, hb1, hb2, hc1, hc2, hd1, hd2, hq, hs, he, hsb, hso]

/-- Looking up a key just written to the cache hits while the age stays
within the TTL. -/
theorem cacheGet_cacheSet (c : QueryEngine.QueryCache) (now t2 : Nat)
    (key : String) (r : SearchResult) (h : t2 - now ≤ c.ttl) :
    QueryEngine.cacheGet (QueryEngine.cacheSet c now key r) t2 key
      = some r := by
  unfold QueryEngine.cacheGet QueryEngine.cacheSet
  simp only [List.lookup, beq_self_eq_true]
  rw [if_neg (by omega)]

/-- Claim C9 (confirmed): the cache key is built only from
(Query, Start epoch, End epoch, SortBy, SortOrder), so a second
`Engine.Query` within `CacheTTL` whose query agrees on those five components
— but may differ in `Limit`, `Offset`, `Filters` or projected `Fields` —
returns the very result cached by the first call (whose hits were sorted and
paginated with the FIRST query's limit and offset), leaving the cache
unchanged; the second call's pagination is never applied. -/
theorem C9_cache_ignores_pagination (store : SearchQuery → SearchResult)
    (t1 t2 : Nat) (q1 q2 : SearchQuery) (c0 : QueryEngine.QueryCache)
    (hq : q1.Query = q2.Query)
    (hs : q1.TimeRange.Start = q2.TimeRange.Start)
    (he : q1.TimeRange.End = q2.TimeRange.End)
    (hsb : q1.SortBy = q2.SortBy) (hso : q1.SortOrder = q2.SortOrder)
    (hmiss : QueryEngine.cacheGet c0 t1
        (QueryEngine.queryCacheKey (QueryEngine.validateQuery q1)) = none)
    (httl : t2 - t1 ≤ c0.ttl) :
    QueryEngine.engineQuery store t2 q2
        (QueryEngine.engineQuery store t1 q1 c0).2 =
      ((QueryEngine.engineQuery store t1 q1 c0).1,
        (QueryEngine.engineQuery store t1 q1 c0).2) ∧
    (QueryEngine.engineQuery store t1 q1 c0).1.Hits =
      QueryEngine.paginateResults (QueryEngine.validateQuery q1)
        (QueryEngine.sortResults (QueryEngine.validateQuery q1)
          (store (QueryEngine.validateQuery q1)).Hits) := by
  have hkey := queryCacheKey_validate_congr q1 q2 hq hs he hsb hso
  have hget : QueryEngine.cacheGet
      (QueryEngine.engineQuery store t1 q1 c0).2 t2
      (QueryEngine.queryCacheKey (QueryEngine.validateQuery q2)) =
      some (QueryEngine.engineQuery store t1 q1 c0).1 := by
    rw [← hkey]
    simp only [QueryEngine.engineQuery, hmiss]
    exact cacheGet_cacheSet c0 t1 t2 _ _ httl
  constructor
  · conv_lhs => rw [QueryEngine.engineQuery]
    rw [hget]
  · simp only [QueryEngine.engineQuery, hmiss]

/-- Witness for `C9_cache_ignores_pagination`: the second query differs in
`Limit`, `Offset` and `Filters` but hits the first call's cache entry. -/
theorem C9_cache_ignores_pagination_witness :
    QueryEngine.engineQuery (fun _ => ⟨[], 0, 0, false⟩) 100
        ⟨"err", ⟨0, 1000000000⟩, [("level", "info")], 100, 5, "timestamp",
          "desc", []⟩
        (QueryEngine.engineQuery (fun _ => ⟨[], 0, 0, false⟩) 0
          ⟨"err", ⟨0, 1000000000⟩, [], 1, 0, "timestamp", "desc", []⟩
          ⟨[], 1000, 300⟩).2 =
      ((QueryEngine.engineQuery (fun _ => ⟨[], 0, 0, false⟩) 0
          ⟨"err", ⟨0, 1000000000⟩, [], 1, 0, "timestamp", "desc", []⟩
          ⟨[], 1000, 300⟩).1,
        (QueryEngine.engineQuery (fun _ => ⟨[], 0, 0, false⟩) 0
          ⟨"err", ⟨0, 1000000000⟩, [], 1, 0, "timestamp", "desc", []⟩
          ⟨[], 1000, 300⟩).2) ∧
    (QueryEngine.engineQuery (fun _ => ⟨[], 0, 0, false⟩) 0
        ⟨"err", ⟨0, 1000000000⟩, [], 1, 0, "timestamp", "desc", []⟩
        ⟨[], 1000, 300⟩).1.Hits =
      QueryEngine.paginateResults
        (QueryEngine.validateQuery
          ⟨"err", ⟨0, 1000000000⟩, [], 1, 0, "timestamp", "desc", []⟩)
        (QueryEngine.sortResults
          (QueryEngine.validateQuery
            ⟨"err", ⟨0, 1000000000⟩, [], 1, 0, "timestamp", "desc", []⟩)
          ((fun (_ : Models.SearchQuery) =>
              (⟨[], 0, 0, false⟩ : Models.SearchResult))
            (QueryEngine.validateQuery
              ⟨"err", ⟨0, 1000000000⟩, [], 1, 0, "timestamp", "desc",
                []⟩)).Hits) :=
  C9_cache_ignores_pagination (fun _ => ⟨[], 0, 0, false⟩) 0 100
    ⟨"err", ⟨0, 1000000000⟩, [], 1, 0, "timestamp", "desc", []⟩
    ⟨"err", ⟨0, 1000000000⟩, [("level", "info")], 100, 5, "timestamp",
      "desc", []⟩
    ⟨[], 1000, 300⟩ rfl rfl rfl rfl rfl rfl (by decide)

end CacheTheorems

section RateLimitTheorems

/-- When less than one second has elapsed since the last refill, `allow`
adds no tokens and just tries to consume one. -/
theorem allow_no_refill (S t : Nat) (st : RateLimit.RLState)
    (h : t - st.lastRefill < S) :
    RateLimit.allow S t st =
      if 0 < st.tokens then (true, { st with tokens := st.tokens - 1 })
      else (false, st) := by
  unfold RateLimit.allow RateLimit.refill
  rw [Nat.div_eq_of_lt h]
  simp

/-- When at least one second has elapsed, `allow` first refills (clamping at
`maxTokens` and moving `lastRefill` to `now`), then tries to consume. -/
theorem allow_refill (S t : Nat) (st : RateLimit.RLState) (hS : 0 < S)
    (h : S ≤ t - st.lastRefill) :
    RateLimit.allow S t st =
      (if 0 < min (st.tokens + (t - st.lastRefill) / S) st.maxTokens then
        (true,
          { st with
            tokens :=
              min (st.tokens + (t - st.lastRefill) / S) st.maxTokens - 1,
            lastRefill := t })
      else
        (false,
          { st with
            tokens := min (st.tokens + (t - st.lastRefill) / S) st.maxTokens,
            lastRefill := t })) := by
  unfold RateLimit.allow RateLimit.refill
  rw [if_pos (Nat.div_pos h hS)]

/-- One `allow` call preserves the window invariant, accounting the call as
accepted when it both consumes a token and falls inside the window. -/
theorem windowInv_step (cap S T : Nat) (hS : 0 < S)
    (st : RateLimit.RLState) (a nu t : Nat) (hnu : nu ≤ t)
    (hinv : RateLimit.WindowInv cap S T st a nu) :
    RateLimit.WindowInv cap S T (RateLimit.allow S t st).2
      (a + (if (RateLimit.allow S t st).1 ∧ T ≤ t ∧ t ≤ T + S then 1 else 0))
      t := by
  obtain ⟨htok, hmax, hlr, hdisj⟩ := hinv
  by_cases hk : S ≤ t - st.lastRefill
  · obtain ⟨k, hkeq, hk1, hkimp⟩ :
        ∃ k, (t - st.lastRefill) / S = k ∧ 1 ≤ k ∧
          (t - st.lastRefill < 2 * S → k ≤ 1) :=
      ⟨(t - st.lastRefill) / S, rfl, Nat.div_pos hk hS, fun hh => by
        have h2 := (Nat.div_lt_iff_lt_mul hS).mpr hh
        omega⟩
    rw [allow_refill S t st hS hk, hkeq]
    by_cases hacc : 0 < min (st.tokens + k) st.maxTokens
    · rw [if_pos hacc]
      by_cases hw : T ≤ t ∧ t ≤ T + S
      · rw [if_pos ⟨rfl, hw⟩]
        unfold RateLimit.WindowInv
        dsimp only
        omega
      · rw [if_neg (fun hcc => hw hcc.2)]
        unfold RateLimit.WindowInv
        dsimp only
        omega
    · rw [if_neg hacc]
      rw [if_neg (by simp)]
      unfold RateLimit.WindowInv
      dsimp only
      omega
  · have hlt : t - st.lastRefill < S := by omega
    rw [allow_no_refill S t st hlt]
    by_cases hacc : 0 < st.tokens
    · rw [if_pos hacc]
      by_cases hw : T ≤ t ∧ t ≤ T + S
      · rw [if_pos ⟨rfl, hw⟩]
        unfold RateLimit.WindowInv
        dsimp only
        omega
      · rw [if_neg (fun hcc => hw hcc.2)]
        unfold RateLimit.WindowInv
        dsimp only
        omega
    · rw [if_neg hacc]
      rw [if_neg (by simp)]
      unfold RateLimit.WindowInv
      dsimp only
      omega

/-- Running the limiter over any nondecreasing trace from an invariant state
keeps the total of past and future in-window accepts within `cap + 1`. -/
theorem countAccepted_le_of_inv (cap S T : Nat) (hS : 0 < S) :
    ∀ (ts : List Nat) (st : RateLimit.RLState) (a nu : Nat),
      List.Chain (· ≤ ·) nu ts → RateLimit.WindowInv cap S T st a nu →
      a + RateLimit.countAccepted S T ts st ≤ cap + 1 := by
  intro ts
  induction ts with
  | nil =>
    intro st a nu _ hinv
    obtain ⟨htok, hmax, hlr, hdisj⟩ := hinv
    simp only [RateLimit.countAccepted]
    omega
  | cons t ts ih =>
    intro st a nu hchain hinv
    rw [List.chain_cons] at hchain
    have hstep := windowInv_step cap S T hS st a nu t hchain.1 hinv
    have hrec := ih ((RateLimit.allow S t st).2)
      (a + (if (RateLimit.allow S t st).1 ∧ T ≤ t ∧ t ≤ T + S then 1 else 0))
      t hchain.2 hstep
    simp only [RateLimit.countAccepted]
    omega

/-- Claim C4 (confirmed): for one agent's token bucket — created by
`checkRateLimit` with `RateLimit` tokens, refilled by whole elapsed seconds
and clamped at `RateLimit` — the number of requests accepted inside any
closed window of one second of real time (`[T, T + S]`, with `S` the number
of time units per second) is at most `RateLimit + 1`, for every
nondecreasing trace of request instants. -/
theorem C4_rate_limit_window (S cap T t0 : Nat) (ts : List Nat) (hS : 0 < S)
    (hmono : List.Chain (· ≤ ·) t0 ts) :
    RateLimit.countAccepted S T ts ⟨cap, cap, t0⟩ ≤ cap + 1 := by
  have h := countAccepted_le_of_inv cap S T hS ts ⟨cap, cap, t0⟩ 0 t0 hmono
    ⟨Nat.le_refl cap, rfl, Nat.le_refl t0, Or.inl rfl⟩
  omega

/-- Witness for `C4_rate_limit_window`: bucket of 2, three calls at instant
0 (two accepted, one rejected) and one at instant 10 = `T + S` (refill of
one token, accepted): exactly `RateLimit + 1 = 3` accepts in the window,
meeting the bound. -/
theorem C4_rate_limit_window_witness :
    RateLimit.countAccepted 10 0 [0, 0, 0, 10] ⟨2, 2, 0⟩ = 3 ∧
    RateLimit.countAccepted 10 0 [0, 0, 0, 10] ⟨2, 2, 0⟩ ≤ 2 + 1 :=
  ⟨rfl, C4_rate_limit_window 10 2 0 0 [0, 0, 0, 10] (by decide)
    (List.Chain.cons (by decide) (List.Chain.cons (by decide)
      (List.Chain.cons (by decide)
        (List.Chain.cons (by decide) List.Chain.nil))))⟩

end RateLimitTheorems
